import Mathlib

/-!
Verification of the Maestro convergence engine: a shallow embedding of the
context binder (pkg/binder), the simple reconciler (pkg/reconciler/simple)
and the conductor (pkg/conductor), with theorems checking the repository's
specification against the code.

Conventions of the embedding:
* Kubernetes objects are modelled by the `Obj` record carrying the metadata
  fields the engine reads or writes (name, namespace, resourceVersion,
  creationTimestamp, generation, uid, owner reference, deletionTimestamp)
  plus an abstract payload `spec`.
* The external store (controller-runtime client) is an oracle `Client`
  giving the outcome of each call; `doReconcile` returns, besides the
  reconcile result and error, the ordered list of store calls it issued.
* Errors are the inductive `Err`; `Option Err` plays the role of Go's
  `error` return, `Except Err A` the role of `(A, error)`.
-/

namespace Maestro

/-! ## Errors -/

/-- Error values produced by the engine or its collaborators.
`store`, `scheme`, `compute` and `preUpdate` carry the underlying message. -/
inductive Err
  | childKeyMismatch
  | contextExists
  | stateNotFound
  | stateMismatch
  | nilChildKeyFn
  | store (msg : String)
  | scheme (msg : String)
  | compute (msg : String)
  | preUpdateErr (msg : String)
deriving DecidableEq, Repr

/-- The message of an error, as Go's `err.Error()` would render it. -/
def Err.message : Err → String
  | .childKeyMismatch => "child key mismatch"
  | .contextExists => "state already exists in context"
  | .stateNotFound => "state not found in context"
  | .stateMismatch => "state type mismatch"
  | .nilChildKeyFn => "nil ChildKeyFn"
  | .store m => m
  | .scheme m => m
  | .compute m => m
  | .preUpdateErr m => m

/-! ## Context binder (pkg/binder, StaticBindable)

A Go context is an immutable chain of key/value wrappers.  The static
binder uses a single key derived from the value's type, so for one binder
the context is observably the chain of values bound under that one key,
most recent first; `nil` entries (written by `Unbind`) shadow older ones. -/

/-- The observable part of a Go context for one static binder key: the
chain of values stored under the key, most recent first. An entry `none`
models `context.WithValue(ctx, key, nil)`. -/
def Ctx (T : Type) : Type := List (Option T)

/-- `ctx.Value(key)`: the most recent entry for the key, `none` when the
chain is empty or the most recent entry stored nil. -/
def ctxValue {T : Type} : Ctx T → Option T
  | [] => none
  | v :: _ => v

/-- `StaticBindable.BindToContext`: fails when a value is already attached,
otherwise attaches the value. -/
def bindToContext {T : Type} (ctx : Ctx T) (v : T) : Except Err (Ctx T) :=
  match ctxValue ctx with
  | some _ => .error .contextExists
  | none => .ok (some v :: ctx)

/-- `StaticBindable.Unbind`: shadows the key with nil. -/
def unbind {T : Type} (ctx : Ctx T) : Ctx T :=
  none :: ctx

/-- `StaticBindable.FromContext`: fails with `stateNotFound` when no value
is attached.  (The Go type assertion on the stored value cannot fail for a
static key, which is typed by `T` itself, so the `stateMismatch` branch is
unreachable and does not appear.) -/
def fromContext {T : Type} (ctx : Ctx T) : Except Err T :=
  match ctxValue ctx with
  | none => .error .stateNotFound
  | some v => .ok v

/-! ## Data model -/

/-- A managed entity: the metadata fields the engine reads or writes plus
an abstract payload. `ownerRef` holds the uid of the owning parent. -/
structure Obj where
  name : String
  ns : String
  resourceVersion : String
  creationTimestamp : Nat
  generation : Nat
  uid : String
  ownerRef : Option String
  deletionTimestamp : Option Nat
  spec : Nat
deriving DecidableEq, Repr

/-- `client.ObjectKey`: (name, namespace). -/
structure Key where
  name : String
  ns : String
deriving DecidableEq, Repr

/-- `client.ObjectKeyFromObject`. -/
def objectKeyFromObject (o : Obj) : Key :=
  ⟨o.name, o.ns⟩

/-- `reconcile.Result`. -/
structure Result where
  requeue : Bool
  requeueAfter : Nat
deriving DecidableEq, Repr

/-- The zero `reconcile.Result{}`: idle. -/
def idleResult : Result :=
  ⟨false, 0⟩

/-- `reconcile.Result{Requeue: true}`. -/
def requeueResult : Result :=
  ⟨true, 0⟩

/-- conductor.shouldReturn: true when the step errored, requested a requeue
or set a positive requeue delay. -/
def shouldReturn (result : Result) (err : Option Err) : Bool :=
  err.isSome || result.requeue || decide (0 < result.requeueAfter)

/-- `metav1.Condition` as the engine builds it: type, boolean status
(`ConditionTrue` is `true`), reason and message.  The timestamp is wall
clock and not modelled. -/
structure Condition where
  type : String
  status : Bool
  reason : String
  message : String
deriving DecidableEq, Repr

/-! ## The store oracle -/

/-- Outcome of a store `Get`: the object, a not-found miss, or any other
error (`failed` never represents not-found). -/
inductive GetOutcome
  | found (o : Obj)
  | notFound
  | failed (e : Err)
deriving Repr

/-- One store call issued by a step, with the argument passed. -/
inductive Call
  | get (k : Key)
  | create (o : Obj)
  | update (o : Obj)
  | dryRunUpd (o : Obj)
  | delete (o : Obj)
deriving DecidableEq, Repr

/-- The external store and type registry, as an oracle fixing the outcome
of every call a single invocation may make.  `dryRunUpdate` returns the
server-normalized value that `Update(..., DryRunAll)` writes back into its
argument; `schemeErr` is the type-registry failure of the owner-link
stamper, when any. -/
structure Client where
  get : Key → GetOutcome
  create : Obj → Option Err
  update : Obj → Option Err
  delete : Obj → Option Err
  dryRunUpdate : Obj → Except Err Obj
  schemeErr : Option Err

/-- Modelled from the spec: the owner-link stamper collaborator
(`controllerutil.SetControllerReference`, external to this repository)
stamps the child's owner link to the parent's reference and fails exactly
when the store's type registry cannot resolve the parent's kind. -/
def setControllerReference (env : Client) (parent child : Obj) : Except Err Obj :=
  match env.schemeErr with
  | some e => .error e
  | none => .ok { child with ownerRef := some parent.uid }

/-! ## Simple reconciler configuration -/

/-- `reconciler.DryRunType`.  In Go this is a string; `unset` is the zero
value `""`, which compares unequal to `DryRunNone` and thus behaves like
`silent` on the dry-run branch. -/
inductive DryRunType
  | unset
  | warn
  | silent
  | none
deriving DecidableEq, Repr

/-- simple.Reconciler: the configuration of one convergence step.
`cmpEqual` stands for `cmp.Equal` under `CompareOpts` plus the always
appended ignore options (managed fields, type meta, status). -/
structure SimpleReconciler where
  name : String
  reconcileFn : Obj → Except Err Obj
  predicateFn : Option (Obj → Bool) := Option.none
  noReference : Bool := false
  dryRunType : DryRunType := .unset
  cmpEqual : Obj → Obj → Bool := fun a b => decide (a = b)
  shouldDeleteFn : Option (Obj → Bool) := Option.none
  childKeyFn : Option (Obj → Obj) := Option.none
  preUpdateFn : Option (Obj → Obj → Obj → Except Err Obj) := Option.none

/-- True when a configured predicate gates the step out. -/
def predicateBlocks (r : SimpleReconciler) (parent : Obj) : Bool :=
  match r.predicateFn with
  | Option.none => false
  | some p => !p parent

/-- The outcome of one `doReconcile` invocation: result, error, the store
calls issued in order, and whether `PreUpdateFn` was invoked. -/
structure RunOut where
  res : Result
  err : Option Err
  calls : List Call
  preUpdateCalled : Bool
deriving DecidableEq, Repr

/-! ## doReconcile (pkg/reconciler/simple/simple.go)

The Go function is straight-line with early returns; it is split here into
one helper per region, each threading the trace of store calls made so
far. -/

/-- The final real `Update` of `doReconcile` (issued when the comparison,
and the dry-run double-check when enabled, found a difference). -/
def doReconcileUpdate (env : Client) (trace : List Call) (desired : Obj)
    (pu : Bool) : RunOut :=
  match env.update desired with
  | some e => ⟨idleResult, some e, trace ++ [.update desired], pu⟩
  | Option.none => ⟨requeueResult, Option.none, trace ++ [.update desired], pu⟩

/-- The comparison region of `doReconcile`: compare current and desired
under the configured equality; when unequal and the dry-run policy is not
`none`, dry-run-apply copies of desired and of current, compare the two
normalized results under the same equality, and only update when they
still differ; the real update always receives `desired` itself, never the
dry-run results. -/
def doReconcileCompare (env : Client) (r : SimpleReconciler) (trace : List Call)
    (current desired : Obj) (pu : Bool) : RunOut :=
  if r.cmpEqual current desired then
    ⟨idleResult, Option.none, trace, pu⟩
  else if r.dryRunType ≠ DryRunType.none then
    match env.dryRunUpdate desired with
    | .error e => ⟨idleResult, some e, trace ++ [.dryRunUpd desired], pu⟩
    | .ok desiredCopy =>
      match env.dryRunUpdate current with
      | .error e =>
        ⟨idleResult, some e, trace ++ [.dryRunUpd desired, .dryRunUpd current], pu⟩
      | .ok currentHack =>
        if r.cmpEqual currentHack desiredCopy then
          ⟨idleResult, Option.none,
            trace ++ [.dryRunUpd desired, .dryRunUpd current], pu⟩
        else
          doReconcileUpdate env
            (trace ++ [.dryRunUpd desired, .dryRunUpd current]) desired pu
  else
    doReconcileUpdate env trace desired pu

/-- `desired` after `doReconcile` copies the store bookkeeping fields
(resourceVersion, creationTimestamp, generation, uid) from the fetched
current object. -/
def withCopiedTokens (desired current : Obj) : Obj :=
  { desired with
    resourceVersion := current.resourceVersion
    creationTimestamp := current.creationTimestamp
    generation := current.generation
    uid := current.uid }

/-- The update path of `doReconcile`, entered once the current object was
fetched: copy the bookkeeping fields onto desired, run `PreUpdateFn` when
configured (an error aborts the step), then compare. -/
def doReconcileFound (env : Client) (r : SimpleReconciler) (trace : List Call)
    (parent current desired0 : Obj) : RunOut :=
  let desired := withCopiedTokens desired0 current
  match r.preUpdateFn with
  | Option.none => doReconcileCompare env r trace current desired false
  | some f =>
    match f parent current desired with
    | .error e => ⟨idleResult, some e, trace, true⟩
    | .ok desired' => doReconcileCompare env r trace current desired' true

/-- The fetch region of `doReconcile`: get the child at desired's key;
not-found leads to `Create`(then requeue), any other error aborts, found
enters the update path. -/
def doReconcileApply (env : Client) (r : SimpleReconciler) (trace : List Call)
    (parent desired : Obj) : RunOut :=
  let key := objectKeyFromObject desired
  match env.get key with
  | .failed e => ⟨idleResult, some e, trace ++ [.get key], false⟩
  | .notFound =>
    match env.create desired with
    | some e => ⟨idleResult, some e, trace ++ [.get key, .create desired], false⟩
    | Option.none =>
      ⟨requeueResult, Option.none, trace ++ [.get key, .create desired], false⟩
  | .found current =>
    doReconcileFound env r (trace ++ [.get key]) parent current desired

/-- The owner-link region of `doReconcile`: unless `NoReference` is set,
stamp the owner link on desired before fetching (a stamper failure aborts
the step). -/
def ownerStep (env : Client) (r : SimpleReconciler) (trace : List Call)
    (parent desired : Obj) : RunOut :=
  if r.noReference then
    doReconcileApply env r trace parent desired
  else
    match setControllerReference env parent desired with
    | .error e => ⟨idleResult, some e, trace, false⟩
    | .ok desired' => doReconcileApply env r trace parent desired'

/-- The backfill of `doReconcile`: name and namespace are taken from the
child key when the compute function left them empty. -/
def backfillKey (childKey : Key) (o : Obj) : Obj :=
  { o with
    name := if o.name = "" then childKey.name else o.name
    ns := if o.ns = "" then childKey.ns else o.ns }

/-- `doReconcile` after the delete region: predicate gate, compute,
child-key backfill and verification (against the `childKey` computed by
the delete region — the zero key when `ShouldDeleteFn` is nil), then the
owner-link and fetch regions. -/
def doReconcileRest (env : Client) (r : SimpleReconciler) (trace : List Call)
    (parent : Obj) (childKey : Key) : RunOut :=
  if predicateBlocks r parent then
    ⟨idleResult, Option.none, trace, false⟩
  else
    match r.reconcileFn parent with
    | .error e => ⟨idleResult, some e, trace, false⟩
    | .ok desired0 =>
      match r.childKeyFn with
      | Option.none => ownerStep env r trace parent desired0
      | some _ =>
        let desired1 := backfillKey childKey desired0
        if childKey.ns ≠ desired1.ns ∨ childKey.name ≠ desired1.name then
          ⟨idleResult, some .childKeyMismatch, trace, false⟩
        else
          ownerStep env r trace parent desired1

/-- simple.Reconciler.doReconcile.  The delete region runs first (before
the predicate gate): when `ShouldDeleteFn` is configured, the child key is
computed from `ChildKeyFn(parent)` (a nil `ChildKeyFn` panics in Go,
modelled as `nilChildKeyFn` with no store calls), the child fetched by
that key, and deleted (then requeue) when `ShouldDeleteFn` says so; a
fetch miss or a fetch of a child not to delete falls through to the rest. -/
def doReconcile (env : Client) (r : SimpleReconciler) (parent : Obj) : RunOut :=
  match r.shouldDeleteFn with
  | Option.none => doReconcileRest env r [] parent ⟨"", ""⟩
  | some shouldDel =>
    match r.childKeyFn with
    | Option.none => ⟨idleResult, some .nilChildKeyFn, [], false⟩
    | some ck =>
      let childKey := objectKeyFromObject (ck parent)
      match env.get childKey with
      | .found cur =>
        if shouldDel parent then
          match env.delete cur with
          | some e => ⟨idleResult, some e, [.get childKey, .delete cur], false⟩
          | Option.none =>
            ⟨requeueResult, Option.none, [.get childKey, .delete cur], false⟩
        else
          doReconcileRest env r [.get childKey] parent childKey
      | .notFound => doReconcileRest env r [.get childKey] parent childKey
      | .failed e => ⟨idleResult, some e, [.get childKey], false⟩

/-! ## The condition-recording wrapper (simple.Reconciler.Reconcile) -/

/-- simple.conditionFromResult: `ConditionTrue` (here `true`) unless the
result requests a requeue. -/
def conditionFromResult (result : Result) : Bool :=
  !(result.requeue || decide (0 < result.requeueAfter))

/-- The condition appended on a step failure. -/
def errorCondition (name : String) (e : Err) : Condition :=
  ⟨name ++ "Error", true, "ReconcileError", e.message⟩

/-- The condition appended on a step success. -/
def reconciledCondition (name : String) (result : Result) : Condition :=
  ⟨name ++ "Reconciled", conditionFromResult result, "Reconciled",
    "Reconciled successfully"⟩

/-- simple.Reconciler.Reconcile with a Run State bound: run `doReconcile`,
append the error or reconciled condition to the state's condition list,
and hand the unchanged result back.  (With no state bound, the Go code
returns `doReconcile`'s result directly and appends nothing.) -/
def reconcileWithState (env : Client) (r : SimpleReconciler) (parent : Obj)
    (conds : List Condition) : RunOut × List Condition :=
  let out := doReconcile env r parent
  match out.err with
  | some e => (out, conds ++ [errorCondition r.name e])
  | Option.none => (out, conds ++ [reconciledCondition r.name out.res])

/-! ## The simple builder (pkg/reconciler/simple/simple_builder.go) -/

/-- reconciler.IsNotMarkedForDeletion: true when the object carries no
deletion timestamp. -/
def isNotMarkedForDeletion (o : Obj) : Bool :=
  o.deletionTimestamp = Option.none

/-- simple.FromReconcileFunc followed by Build, with no intervening
builder calls: the reconciler with the given compute function, the
predicate defaulted to `IsNotMarkedForDeletion`, the dry-run type
defaulted to `DryRunWarn`, and every other field at its zero value. -/
def fromReconcileFunc (fn : Obj → Except Err Obj) : SimpleReconciler :=
  { name := ""
    reconcileFn := fn
    predicateFn := some isNotMarkedForDeletion
    dryRunType := .warn }

/-! ## The conductor (pkg/conductor/conductor.go)

A registered step is modelled by its observed behaviour for the run: the
result and error it returns and the conditions it appends to the bound Run
State.  `Conduct` binds a fresh state (the bind succeeds on a fresh
context), loops over the steps in registration order with `shouldReturn`
deciding the early exit, and on completion hands the accumulated
conditions to the status-conditions handler, when one is configured. -/

/-- The observed behaviour of one registered step for one run. -/
structure StepOut where
  res : Result
  err : Option Err
  conds : List Condition
deriving DecidableEq, Repr

/-- The observable outcome of one `Conduct` call: the returned result and
error, how many steps were invoked, and the argument the status handler
was invoked with (`none` when it was not invoked). -/
structure ConductOut where
  res : Result
  err : Option Err
  invoked : Nat
  callback : Option (List Condition)
deriving DecidableEq, Repr

/-- The loop of `Conduct`, carrying the accumulated conditions and the
count of steps invoked so far. -/
def conductGo (handler : Option (List Condition → Option Err)) :
    List StepOut → List Condition → Nat → ConductOut
  | [], conds, n =>
    match handler with
    | Option.none => ⟨idleResult, Option.none, n, Option.none⟩
    | some h => ⟨idleResult, h conds, n, some conds⟩
  | s :: rest, conds, n =>
    let conds' := conds ++ s.conds
    if shouldReturn s.res s.err then
      ⟨s.res, s.err, n + 1, Option.none⟩
    else
      conductGo handler rest conds' (n + 1)

/-- Conductor.Conduct over the registered steps, starting from the fresh
Run State's empty condition list. -/
def conduct (handler : Option (List Condition → Option Err))
    (steps : List StepOut) : ConductOut :=
  conductGo handler steps [] 0

/-- All conditions the given steps append, in order. -/
def stepConds : List StepOut → List Condition
  | [] => []
  | s :: rest => s.conds ++ stepConds rest

/-! ## Store-call shapes (for the side-effect claims) -/

/-- A mutating store call (everything but `get`). -/
def Call.isWrite : Call → Bool
  | .get _ => false
  | _ => true

/-- The mutating store calls of a trace, in order. -/
def writeCalls (cs : List Call) : List Call :=
  cs.filter Call.isWrite

/-- The side-effect shapes the specification enumerates: no store call,
one create, one update, one delete, or two dry-run applies possibly
followed by one update. -/
def specWriteShape : List Call → Bool
  | [] => true
  | [.create _] => true
  | [.update _] => true
  | [.delete _] => true
  | [.dryRunUpd _, .dryRunUpd _] => true
  | [.dryRunUpd _, .dryRunUpd _, .update _] => true
  | _ => false

/-- The shapes the code can actually produce: the specification's shapes
plus a single dry-run apply (when the first dry-run apply fails). -/
def codeWriteShape : List Call → Bool
  | [.dryRunUpd _] => true
  | cs => specWriteShape cs

/-! ## Concrete fixtures used by counterexamples and witnesses -/

/-- A concrete child entity. -/
def childObj : Obj :=
  ⟨"c", "n", "", 0, 0, "", Option.none, Option.none, 0⟩

/-- A concrete parent entity. -/
def parentObj : Obj :=
  ⟨"web", "n", "rv1", 5, 1, "parent-uid", Option.none, Option.none, 3⟩

/-- A store with no objects where every call succeeds. -/
def emptyStore : Client :=
  { get := fun _ => .notFound
    create := fun _ => Option.none
    update := fun _ => Option.none
    delete := fun _ => Option.none
    dryRunUpdate := fun o => .ok o
    schemeErr := Option.none }

/-- A store that always finds `childObj` and where every call succeeds. -/
def foundStore : Client :=
  { emptyStore with get := fun _ => .found childObj }

/-- A minimal reconciler: just a name and a compute function. -/
def plainRec : SimpleReconciler :=
  { name := "Pod", reconcileFn := fun _ => .ok childObj }

/-! ## Conductor lemmas -/

theorem conductGo_shortCircuit (handler : Option (List Condition → Option Err)) :
    ∀ (pre : List StepOut) (s : StepOut) (post : List StepOut)
      (conds : List Condition) (n : Nat),
      (∀ t ∈ pre, shouldReturn t.res t.err = false) →
      shouldReturn s.res s.err = true →
      conductGo handler (pre ++ s :: post) conds n =
        ⟨s.res, s.err, n + pre.length + 1, Option.none⟩ := by
  intro pre
  induction pre with
  | nil =>
    intro s post conds n _ hs
    simp [conductGo, hs]
  | cons t pre ih =>
    intro s post conds n hpre hs
    have ht : shouldReturn t.res t.err = false := hpre t (by simp)
    rw [List.cons_append]
    simp only [conductGo, ht, if_neg Bool.false_ne_true]
    rw [ih s post (conds ++ t.conds) (n + 1) (fun u hu => hpre u (by simp [hu])) hs]
    simp only [ConductOut.mk.injEq, List.length_cons, true_and, and_true]
    omega

theorem conductGo_allIdle_some (h : List Condition → Option Err) :
    ∀ (steps : List StepOut) (conds : List Condition) (n : Nat),
      (∀ t ∈ steps, shouldReturn t.res t.err = false) →
      conductGo (some h) steps conds n =
        ⟨idleResult, h (conds ++ stepConds steps), n + steps.length,
          some (conds ++ stepConds steps)⟩ := by
  intro steps
  induction steps with
  | nil =>
    intro conds n _
    simp [conductGo, stepConds]
  | cons t rest ih =>
    intro conds n hidle
    have ht : shouldReturn t.res t.err = false := hidle t (by simp)
    simp only [conductGo, ht, if_neg Bool.false_ne_true]
    rw [ih (conds ++ t.conds) (n + 1) (fun u hu => hidle u (by simp [hu]))]
    simp only [ConductOut.mk.injEq, stepConds, List.length_cons,
      List.append_assoc, true_and, and_true]
    omega

theorem conductGo_allIdle_none :
    ∀ (steps : List StepOut) (conds : List Condition) (n : Nat),
      (∀ t ∈ steps, shouldReturn t.res t.err = false) →
      conductGo Option.none steps conds n =
        ⟨idleResult, Option.none, n + steps.length, Option.none⟩ := by
  intro steps
  induction steps with
  | nil =>
    intro conds n _
    simp [conductGo]
  | cons t rest ih =>
    intro conds n hidle
    have ht : shouldReturn t.res t.err = false := hidle t (by simp)
    simp only [conductGo, ht, if_neg Bool.false_ne_true]
    rw [ih (conds ++ t.conds) (n + 1) (fun u hu => hidle u (by simp [hu]))]
    simp only [ConductOut.mk.injEq, List.length_cons, true_and, and_true]
    omega

/-! ## Claim theorems -/

/-- C1: `Conduct` invokes the registered steps in registration order; at
the first step whose result signals requeue or error it returns that
step's result immediately, with no later step invoked and the
status-conditions callback not invoked; when every step is idle with no
error, the callback (when configured) is invoked exactly once with all
accumulated outcome records and `Conduct` returns the idle result. -/
theorem conduct_order_shortCircuit_callback :
    (∀ (handler : Option (List Condition → Option Err)) (pre : List StepOut)
        (s : StepOut) (post : List StepOut),
        (∀ t ∈ pre, shouldReturn t.res t.err = false) →
        shouldReturn s.res s.err = true →
        conduct handler (pre ++ s :: post) =
          ⟨s.res, s.err, pre.length + 1, Option.none⟩) ∧
    (∀ (h : List Condition → Option Err) (steps : List StepOut),
        (∀ t ∈ steps, shouldReturn t.res t.err = false) →
        conduct (some h) steps =
          ⟨idleResult, h (stepConds steps), steps.length, some (stepConds steps)⟩) ∧
    (∀ (steps : List StepOut),
        (∀ t ∈ steps, shouldReturn t.res t.err = false) →
        conduct Option.none steps =
          ⟨idleResult, Option.none, steps.length, Option.none⟩) := by
  refine ⟨?_, ?_, ?_⟩
  · intro handler pre s post hpre hs
    rw [conduct, conductGo_shortCircuit handler pre s post [] 0 hpre hs]
    simp
  · intro h steps hidle
    rw [conduct, conductGo_allIdle_some h steps [] 0 hidle]
    simp
  · intro steps hidle
    rw [conduct, conductGo_allIdle_none steps [] 0 hidle]
    simp

/-- A step that is idle and appends one condition. -/
def stepIdleA : StepOut :=
  ⟨idleResult, Option.none, [⟨"AReconciled", true, "Reconciled", "ok"⟩]⟩

/-- A step that requests a requeue. -/
def stepRequeueB : StepOut :=
  ⟨requeueResult, Option.none, [⟨"BReconciled", false, "Reconciled", "ok"⟩]⟩

/-- A step after the requeueing one; it is never reached. -/
def stepIdleC : StepOut :=
  ⟨idleResult, Option.none, [⟨"CReconciled", true, "Reconciled", "ok"⟩]⟩

/-- Witness for C1: with three steps where step 2 requeues, exactly two
steps are invoked, step 2's result is returned and the callback is not
invoked; with the single idle step, the callback receives its condition. -/
theorem conduct_order_shortCircuit_callback_witness :
    conduct (some fun _ => Option.none) [stepIdleA, stepRequeueB, stepIdleC] =
      ⟨requeueResult, Option.none, 2, Option.none⟩ ∧
    conduct (some fun _ => Option.none) [stepIdleA] =
      ⟨idleResult, Option.none, 1,
        some [⟨"AReconciled", true, "Reconciled", "ok"⟩]⟩ := by
  constructor
  · have h := conduct_order_shortCircuit_callback.1 (some fun _ => Option.none)
      [stepIdleA] stepRequeueB [stepIdleC] (by decide) (by decide)
    simpa using h
  · have h := conduct_order_shortCircuit_callback.2.1 (fun _ => Option.none)
      [stepIdleA] (by decide)
    simpa [stepConds, stepIdleA] using h

/-- C2: with a Run State bound, a step invocation whose inner reconcile
succeeds appends a condition named `<StepName>Reconciled` whose status is
true exactly when no requeue was requested, and a failing invocation
appends `<StepName>Error` carrying the error message; in both cases the
condition is appended to the state handed back together with the step's
unchanged result. -/
theorem step_wraps_outcome_conditions (env : Client) (r : SimpleReconciler)
    (parent : Obj) (conds : List Condition) :
    (∀ e, (doReconcile env r parent).err = some e →
      reconcileWithState env r parent conds =
        (doReconcile env r parent,
          conds ++ [⟨r.name ++ "Error", true, "ReconcileError", e.message⟩])) ∧
    ((doReconcile env r parent).err = Option.none →
      reconcileWithState env r parent conds =
        (doReconcile env r parent,
          conds ++ [⟨r.name ++ "Reconciled",
            conditionFromResult (doReconcile env r parent).res,
            "Reconciled", "Reconciled successfully"⟩])) ∧
    (∀ result : Result, conditionFromResult result = true ↔
      (result.requeue = false ∧ result.requeueAfter = 0)) := by
  refine ⟨?_, ?_, ?_⟩
  · intro e he
    simp [reconcileWithState, he, errorCondition]
  · intro he
    simp [reconcileWithState, he, reconciledCondition]
  · intro result
    obtain ⟨b, a⟩ := result
    cases b <;> simp [conditionFromResult]

/-- Witness for C2: a successful creation run appends a
`PodReconciled` condition with status false (requeue requested). -/
theorem step_wraps_outcome_conditions_witness :
    reconcileWithState emptyStore plainRec parentObj [] =
      (doReconcile emptyStore plainRec parentObj,
        [⟨"PodReconciled", false, "Reconciled", "Reconciled successfully"⟩]) ∧
    (doReconcile emptyStore plainRec parentObj).res.requeue = true := by
  constructor
  · have h := (step_wraps_outcome_conditions emptyStore plainRec parentObj []).2.1
      (by decide)
    simpa [plainRec] using h
  · decide

/-- C9: for the static binder, binding on a context with no value attached
succeeds and a lookup on the resulting context returns exactly the bound
value; binding on a context with a value attached fails with the
already-bound error; and a lookup after `unbind` fails with not-found for
every context, including one produced by a prior successful bind. -/
theorem static_binder_bind_lookup_unbind :
    (∀ (T : Type) (ctx : Ctx T) (v : T), ctxValue ctx = Option.none →
      bindToContext ctx v = .ok (some v :: ctx) ∧
      fromContext (some v :: ctx) = .ok v) ∧
    (∀ (T : Type) (ctx : Ctx T) (v : T), ctxValue ctx ≠ Option.none →
      bindToContext ctx v = .error .contextExists) ∧
    (∀ (T : Type) (ctx : Ctx T), fromContext (unbind ctx) = .error .stateNotFound) := by
  refine ⟨?_, ?_, ?_⟩
  · intro T ctx v h
    exact ⟨by simp [bindToContext, h], by simp [fromContext, ctxValue]⟩
  · intro T ctx v h
    unfold bindToContext
    match hv : ctxValue ctx with
    | Option.none => exact absurd hv h
    | some w => rfl
  · intro T ctx
    rfl

/-- Witness for C9 at concrete contexts over `Nat`. -/
theorem static_binder_bind_lookup_unbind_witness :
    (bindToContext ([] : Ctx Nat) 7 = .ok [some 7] ∧
      fromContext [some 7] = .ok 7) ∧
    bindToContext ([some 5] : Ctx Nat) 7 = .error .contextExists ∧
    fromContext (unbind ([some 7] : Ctx Nat)) = .error .stateNotFound := by
  refine ⟨?_, ?_, ?_⟩
  · exact static_binder_bind_lookup_unbind.1 Nat [] 7 rfl
  · exact static_binder_bind_lookup_unbind.2.1 Nat [some 5] 7 (by simp [ctxValue])
  · exact static_binder_bind_lookup_unbind.2.2 Nat [some 7]

/-- C10: the builder's `FromReconcileFunc`, with no further builder calls,
produces a reconciler whose predicate defaults to
`IsNotMarkedForDeletion` and whose dry-run type defaults to `DryRunWarn`;
consequently, for every parent carrying a deletion timestamp (and no
`ShouldDeleteFn` configured, the default), the step is gated out: idle
result, no error, no store calls. -/
theorem builder_defaults_gate_deleting_parent :
    (∀ fn, (fromReconcileFunc fn).predicateFn = some isNotMarkedForDeletion ∧
      (fromReconcileFunc fn).dryRunType = DryRunType.warn ∧
      (fromReconcileFunc fn).shouldDeleteFn = Option.none) ∧
    (∀ (env : Client) (fn : Obj → Except Err Obj) (parent : Obj) (t : Nat),
      parent.deletionTimestamp = some t →
      doReconcile env (fromReconcileFunc fn) parent =
        ⟨idleResult, Option.none, [], false⟩) := by
  refine ⟨fun fn => ⟨rfl, rfl, rfl⟩, ?_⟩
  intro env fn parent t ht
  simp [doReconcile, fromReconcileFunc, doReconcileRest, predicateBlocks,
    isNotMarkedForDeletion, ht]

/-- Witness for C10: a parent marked for deletion is gated out by the
builder's default predicate. -/
theorem builder_defaults_gate_deleting_parent_witness :
    doReconcile emptyStore (fromReconcileFunc fun _ => .ok childObj)
      { parentObj with deletionTimestamp := some 3 } =
      ⟨idleResult, Option.none, [], false⟩ :=
  builder_defaults_gate_deleting_parent.2 emptyStore (fun _ => .ok childObj)
    { parentObj with deletionTimestamp := some 3 } 3 rfl

/-- The object key does not depend on the owner link. -/
theorem key_ignores_ownerRef (o : Obj) (w : Option String) :
    objectKeyFromObject { o with ownerRef := w } = objectKeyFromObject o :=
  rfl

/-- A reconciler whose predicate always gates it out but whose delete
region is configured and fires. -/
def gatedDeleteRec : SimpleReconciler :=
  { name := "Pod"
    reconcileFn := fun _ => .ok childObj
    predicateFn := some fun _ => false
    shouldDeleteFn := some fun _ => true
    childKeyFn := some fun _ => childObj }

/-- Counterexample to C3 as stated: with the predicate returning false but
`ShouldDeleteFn` configured and firing, the step issues a get and a delete
and returns a requeue — the delete region runs before the predicate gate. -/
theorem predicate_false_still_calls_store_counterexample :
    (gatedDeleteRec.predicateFn.map fun p => p parentObj) = some false ∧
    doReconcile foundStore gatedDeleteRec parentObj =
      ⟨requeueResult, Option.none,
        [.get (objectKeyFromObject childObj), .delete childObj], false⟩ :=
  ⟨rfl, by decide⟩

/-- C3 (amended): for every parent and step whose predicate is configured
and returns false, and whose `ShouldDeleteFn` is not configured, the step
performs no store calls and returns the idle result with no error,
regardless of the remaining options. -/
theorem predicate_false_no_store_calls (env : Client) (r : SimpleReconciler)
    (parent : Obj) (p : Obj → Bool)
    (hsd : r.shouldDeleteFn = Option.none)
    (hp : r.predicateFn = some p) (hpf : p parent = false) :
    doReconcile env r parent = ⟨idleResult, Option.none, [], false⟩ := by
  simp [doReconcile, hsd, doReconcileRest, predicateBlocks, hp, hpf]

/-- Witness for the amended C3. -/
theorem predicate_false_no_store_calls_witness :
    doReconcile emptyStore { plainRec with predicateFn := some fun _ => false }
      parentObj = ⟨idleResult, Option.none, [], false⟩ :=
  predicate_false_no_store_calls emptyStore
    { plainRec with predicateFn := some fun _ => false } parentObj
    (fun _ => false) rfl rfl rfl

/-- A reconciler with `ChildKeyFn` configured but `ShouldDeleteFn` not,
whose compute function returns exactly the declared child key. -/
def keyedRec : SimpleReconciler :=
  { name := "Pod"
    reconcileFn := fun _ => .ok childObj
    childKeyFn := some fun _ => childObj }

/-- C4: evidence of the code bug.  `ChildKeyFn` is configured and the
computed child's (name, namespace) equals the key derived from
`ChildKeyFn(parent)`, yet with `ShouldDeleteFn` not configured the step
fails with the child-key-mismatch error: the code only derives `childKey`
from `ChildKeyFn` inside the delete region, so the verification compares
desired against the zero key. -/
theorem childKey_agreement_still_fails_without_shouldDelete :
    keyedRec.reconcileFn parentObj = .ok childObj ∧
    (keyedRec.childKeyFn.map fun f => objectKeyFromObject (f parentObj)) =
      some (objectKeyFromObject childObj) ∧
    keyedRec.shouldDeleteFn = Option.none ∧
    doReconcile emptyStore keyedRec parentObj =
      ⟨idleResult, some .childKeyMismatch, [], false⟩ :=
  ⟨rfl, rfl, rfl, by decide⟩

/-- C6: on the create path (fetch misses, create succeeds), the created
child's owner link equals the parent's reference — the owner reference is
stamped on desired before the create — unless `NoReference` is set, in
which case desired is created unchanged; the successful create path
returns a requeue result. -/
theorem create_stamps_owner_link_and_requeues :
    (∀ (env : Client) (r : SimpleReconciler) (trace : List Call)
        (parent desired : Obj),
        r.noReference = false → env.schemeErr = Option.none →
        env.get (objectKeyFromObject desired) = .notFound →
        env.create { desired with ownerRef := some parent.uid } = Option.none →
        ownerStep env r trace parent desired =
          ⟨requeueResult, Option.none,
            trace ++ [.get (objectKeyFromObject desired),
              .create { desired with ownerRef := some parent.uid }], false⟩) ∧
    (∀ (env : Client) (r : SimpleReconciler) (trace : List Call)
        (parent desired : Obj),
        r.noReference = true →
        env.get (objectKeyFromObject desired) = .notFound →
        env.create desired = Option.none →
        ownerStep env r trace parent desired =
          ⟨requeueResult, Option.none,
            trace ++ [.get (objectKeyFromObject desired), .create desired],
            false⟩) := by
  constructor
  · intro env r trace parent desired hnr hscheme hget hcreate
    rw [ownerStep, hnr]
    simp only [Bool.false_eq_true, if_false, setControllerReference, hscheme]
    rw [doReconcileApply, key_ignores_ownerRef, hget, hcreate]
  · intro env r trace parent desired hnr hget hcreate
    rw [ownerStep, hnr, if_pos rfl, doReconcileApply, hget, hcreate]

/-- Witness for C6: both conjuncts at a concrete empty store. -/
theorem create_stamps_owner_link_and_requeues_witness :
    ownerStep emptyStore plainRec [] parentObj childObj =
      ⟨requeueResult, Option.none,
        [.get (objectKeyFromObject childObj),
          .create { childObj with ownerRef := some "parent-uid" }], false⟩ ∧
    ownerStep emptyStore { plainRec with noReference := true } [] parentObj
      childObj =
      ⟨requeueResult, Option.none,
        [.get (objectKeyFromObject childObj), .create childObj], false⟩ := by
  constructor
  · have h := create_stamps_owner_link_and_requeues.1 emptyStore plainRec []
      parentObj childObj rfl rfl rfl rfl
    simpa [parentObj] using h
  · have h := create_stamps_owner_link_and_requeues.2 emptyStore
      { plainRec with noReference := true } [] parentObj childObj rfl rfl rfl
    simpa using h

/-- C5: when the comparison step sees current and desired unequal under
the configured equality and the dry-run policy is not `none`, both the
desired and the current value are dry-run-applied and the two normalized
results are compared under the same equality; if they are equal the step
returns idle with no real update, and if they are unequal exactly one
real update is issued with the original desired value — the value that
entered the comparison carrying the bookkeeping tokens copied from
current (first conjunct), not the dry-run-normalized copy — followed by
a requeue result. -/
theorem dryrun_update_uses_original_desired :
    (∀ (env : Client) (r : SimpleReconciler) (trace : List Call)
        (parent current d0 : Obj),
        r.preUpdateFn = Option.none →
        doReconcileFound env r trace parent current d0 =
          doReconcileCompare env r trace current (withCopiedTokens d0 current)
            false) ∧
    (∀ (env : Client) (r : SimpleReconciler) (trace : List Call)
        (current desired : Obj) (pu : Bool) (d' c' : Obj),
        r.cmpEqual current desired = false →
        r.dryRunType ≠ DryRunType.none →
        env.dryRunUpdate desired = .ok d' →
        env.dryRunUpdate current = .ok c' →
        (r.cmpEqual c' d' = true →
          doReconcileCompare env r trace current desired pu =
            ⟨idleResult, Option.none,
              trace ++ [.dryRunUpd desired, .dryRunUpd current], pu⟩) ∧
        (r.cmpEqual c' d' = false → env.update desired = Option.none →
          doReconcileCompare env r trace current desired pu =
            ⟨requeueResult, Option.none,
              trace ++ [.dryRunUpd desired, .dryRunUpd current,
                .update desired], pu⟩)) := by
  constructor
  · intro env r trace parent current d0 h
    simp [doReconcileFound, h]
  · intro env r trace current desired pu d' c' hne hdrt hd hc
    constructor
    · intro heq
      simp [doReconcileCompare, hne, hdrt, hd, hc, heq]
    · intro hne' hupd
      simp [doReconcileCompare, hne, hdrt, hd, hc, hne', doReconcileUpdate, hupd]

/-- A reconciler comparing only the payload, with dry-run enabled. -/
def diffSpecRec : SimpleReconciler :=
  { name := "Pod"
    reconcileFn := fun _ => .ok childObj
    dryRunType := .warn
    cmpEqual := fun a b => decide (a.spec = b.spec) }

/-- A store whose dry-run normalizes every payload to 42. -/
def normStore : Client :=
  { emptyStore with
    get := fun _ => .found childObj
    dryRunUpdate := fun o => .ok { o with spec := 42 } }

/-- A store whose dry-run returns its argument unchanged. -/
def identStore : Client :=
  { emptyStore with get := fun _ => .found childObj }

/-- A desired value differing from `childObj` in the payload. -/
def desiredSpec1 : Obj :=
  { childObj with spec := 1 }

/-- Witness for C5: under the normalizing store the dry-run results agree
and no update is issued; under the identity store they differ and one
update with the original desired value is issued. -/
theorem dryrun_update_uses_original_desired_witness :
    doReconcileCompare normStore diffSpecRec [] childObj desiredSpec1 false =
      ⟨idleResult, Option.none,
        [.dryRunUpd desiredSpec1, .dryRunUpd childObj], false⟩ ∧
    doReconcileCompare identStore diffSpecRec [] childObj desiredSpec1 false =
      ⟨requeueResult, Option.none,
        [.dryRunUpd desiredSpec1, .dryRunUpd childObj,
          .update desiredSpec1], false⟩ := by
  constructor
  · have h := (dryrun_update_uses_original_desired.2 normStore diffSpecRec []
      childObj desiredSpec1 false { desiredSpec1 with spec := 42 }
      { childObj with spec := 42 } (by decide) (by decide) rfl rfl).1 (by decide)
    simpa using h
  · have h := (dryrun_update_uses_original_desired.2 identStore diffSpecRec []
      childObj desiredSpec1 false desiredSpec1 childObj (by decide) (by decide)
      rfl rfl).2 (by decide) rfl
    simpa using h

/-! ## Structural lemmas: the update path issues no create -/

theorem update_create_mem (env : Client) (trace : List Call) (d : Obj)
    (pu : Bool) :
    ∀ o, Call.create o ∈ (doReconcileUpdate env trace d pu).calls →
      Call.create o ∈ trace := by
  unfold doReconcileUpdate
  split <;> intro o h <;> simpa using h

theorem compare_create_mem (env : Client) (r : SimpleReconciler)
    (trace : List Call) (c d : Obj) (pu : Bool) :
    ∀ o, Call.create o ∈ (doReconcileCompare env r trace c d pu).calls →
      Call.create o ∈ trace := by
  unfold doReconcileCompare
  intro o
  repeat' split
  all_goals intro h
  all_goals try simpa using h
  all_goals
    have h2 := update_create_mem env _ d pu o h
  all_goals simpa using h2

theorem found_create_mem (env : Client) (r : SimpleReconciler)
    (trace : List Call) (parent cur d0 : Obj) :
    ∀ o, Call.create o ∈ (doReconcileFound env r trace parent cur d0).calls →
      Call.create o ∈ trace := by
  intro o
  simp only [doReconcileFound]
  rcases hp : r.preUpdateFn with _ | f <;> simp only [hp]
  · exact compare_create_mem env r trace cur _ _ o
  · rcases hf : f parent cur (withCopiedTokens d0 cur) with e | d' <;>
      simp only [hf]
    · intro h
      simpa using h
    · exact compare_create_mem env r trace cur _ _ o

theorem apply_create_pu (env : Client) (r : SimpleReconciler)
    (trace : List Call) (parent d : Obj) :
    ∀ o, (doReconcileApply env r trace parent d).preUpdateCalled = true →
      Call.create o ∈ (doReconcileApply env r trace parent d).calls →
      Call.create o ∈ trace := by
  intro o
  simp only [doReconcileApply]
  rcases hget : env.get (objectKeyFromObject d) with cur | _ | e <;>
    simp only [hget]
  · intro hpu h
    have h2 := found_create_mem env r _ parent cur d o h
    simpa using h2
  · rcases hc : env.create d with _ | e <;> simp only [hc] <;>
      intro hpu _ <;> simp at hpu
  · intro hpu _
    simp at hpu

theorem ownerStep_create_pu (env : Client) (r : SimpleReconciler)
    (trace : List Call) (parent d : Obj) :
    ∀ o, (ownerStep env r trace parent d).preUpdateCalled = true →
      Call.create o ∈ (ownerStep env r trace parent d).calls →
      Call.create o ∈ trace := by
  intro o
  simp only [ownerStep]
  cases hnr : r.noReference <;> simp only [hnr, Bool.false_eq_true, if_false,
    if_true]
  · rcases hsc : setControllerReference env parent d with e | d' <;>
      simp only [hsc]
    · intro hpu _
      simp at hpu
    · exact apply_create_pu env r trace parent d' o
  · exact apply_create_pu env r trace parent d o

theorem rest_create_pu (env : Client) (r : SimpleReconciler)
    (trace : List Call) (parent : Obj) (ck : Key) :
    ∀ o, (doReconcileRest env r trace parent ck).preUpdateCalled = true →
      Call.create o ∈ (doReconcileRest env r trace parent ck).calls →
      Call.create o ∈ trace := by
  intro o
  simp only [doReconcileRest]
  cases hpb : predicateBlocks r parent <;> simp only [hpb,
    Bool.false_eq_true, if_false, if_true]
  · rcases hr : r.reconcileFn parent with e | d0 <;> simp only [hr]
    · intro hpu _
      simp at hpu
    · rcases hck : r.childKeyFn with _ | f <;> simp only [hck]
      · exact ownerStep_create_pu env r trace parent d0 o
      · split
        · intro hpu _
          simp at hpu
        · exact ownerStep_create_pu env r trace parent _ o
  · intro hpu _
    simp at hpu

theorem doReconcile_create_pu (env : Client) (r : SimpleReconciler)
    (parent : Obj) :
    ∀ o, (doReconcile env r parent).preUpdateCalled = true →
      Call.create o ∉ (doReconcile env r parent).calls := by
  intro o
  simp only [doReconcile]
  rcases hsd : r.shouldDeleteFn with _ | sdf <;> simp only [hsd]
  · intro hpu h
    have h2 := rest_create_pu env r [] parent _ o hpu h
    simp at h2
  · rcases hck : r.childKeyFn with _ | ckf <;> simp only [hck]
    · intro hpu _
      simp at hpu
    · rcases hget : env.get (objectKeyFromObject (ckf parent)) with cur | _ | e <;>
        simp only [hget]
      · cases hdel : sdf parent <;> simp only [hdel, Bool.false_eq_true,
          if_false, if_true]
        · intro hpu h
          have h2 := rest_create_pu env r _ parent _ o hpu h
          simp at h2
        · rcases hd : env.delete cur with _ | e <;> simp only [hd] <;>
            intro hpu _ <;> simp at hpu
      · intro hpu h
        have h2 := rest_create_pu env r _ parent _ o hpu h
        simp at h2
      · intro hpu _
        simp at hpu

/-- C7: `PreUpdateFn` is invoked only on the path where the current child
was fetched — whenever it was invoked, no create was issued (first
conjunct); when it returns an error the step aborts with that error
adding no store call (second conjunct); at the whole-step level a failing
`PreUpdateFn` leaves only the fetch in the trace: no create, update,
delete or dry-run apply was issued (third conjunct). -/
theorem preUpdate_only_on_update_path_and_aborts :
    (∀ (env : Client) (r : SimpleReconciler) (parent : Obj) (o : Obj),
        (doReconcile env r parent).preUpdateCalled = true →
        Call.create o ∉ (doReconcile env r parent).calls) ∧
    (∀ (env : Client) (r : SimpleReconciler) (trace : List Call)
        (parent current d0 : Obj) (f : Obj → Obj → Obj → Except Err Obj)
        (e : Err),
        r.preUpdateFn = some f →
        f parent current (withCopiedTokens d0 current) = .error e →
        doReconcileFound env r trace parent current d0 =
          ⟨idleResult, some e, trace, true⟩) ∧
    (∀ (env : Client) (r : SimpleReconciler) (parent d0 cur : Obj)
        (f : Obj → Obj → Obj → Except Err Obj) (e : Err),
        r.shouldDeleteFn = Option.none →
        r.childKeyFn = Option.none →
        predicateBlocks r parent = false →
        r.reconcileFn parent = .ok d0 →
        r.noReference = false → env.schemeErr = Option.none →
        env.get (objectKeyFromObject d0) = .found cur →
        r.preUpdateFn = some f →
        f parent cur
          (withCopiedTokens { d0 with ownerRef := some parent.uid } cur) =
          .error e →
        doReconcile env r parent =
          ⟨idleResult, some e, [.get (objectKeyFromObject d0)], true⟩) := by
  refine ⟨?_, ?_, ?_⟩
  · intro env r parent o
    exact doReconcile_create_pu env r parent o
  · intro env r trace parent current d0 f e hf herr
    simp [doReconcileFound, hf, herr]
  · intro env r parent d0 cur f e hsd hck hpb hrec hnr hscheme hget hpuf hf
    simp only [doReconcile, hsd, doReconcileRest, hpb, Bool.false_eq_true,
      if_false, hrec, hck, ownerStep, hnr, setControllerReference, hscheme,
      doReconcileApply, key_ignores_ownerRef, hget, doReconcileFound, hpuf,
      hf, List.nil_append]

/-- A reconciler whose `PreUpdateFn` always fails. -/
def preFailRec : SimpleReconciler :=
  { name := "Pod"
    reconcileFn := fun _ => .ok childObj
    preUpdateFn := some fun _ _ _ => .error (.preUpdateErr "nope") }

/-- Witness for C7: against a store where the child exists, the failing
`PreUpdateFn` aborts the step with only the fetch issued, and no create
appears in the trace even though `PreUpdateFn` ran. -/
theorem preUpdate_only_on_update_path_and_aborts_witness :
    doReconcile foundStore preFailRec parentObj =
      ⟨idleResult, some (.preUpdateErr "nope"),
        [.get (objectKeyFromObject childObj)], true⟩ ∧
    Call.create childObj ∉ (doReconcile foundStore preFailRec parentObj).calls := by
  constructor
  · exact preUpdate_only_on_update_path_and_aborts.2.2 foundStore preFailRec
      parentObj childObj childObj (fun _ _ _ => .error (.preUpdateErr "nope"))
      (.preUpdateErr "nope") rfl rfl rfl rfl rfl rfl rfl rfl rfl
  · exact preUpdate_only_on_update_path_and_aborts.1 foundStore preFailRec
      parentObj childObj (by decide)

/-! ## Structural lemmas: the shape of the mutating store calls -/

theorem writeCalls_append (a b : List Call) :
    writeCalls (a ++ b) = writeCalls a ++ writeCalls b := by
  simp [writeCalls]

theorem upd_writes (env : Client) (trace : List Call) (d : Obj) (pu : Bool) :
    writeCalls (doReconcileUpdate env trace d pu).calls =
      writeCalls trace ++ [Call.update d] := by
  unfold doReconcileUpdate
  split <;> simp [writeCalls_append, writeCalls, Call.isWrite]

theorem compare_shape (env : Client) (r : SimpleReconciler) (trace : List Call)
    (c d : Obj) (pu : Bool) (ht : writeCalls trace = []) :
    codeWriteShape (writeCalls (doReconcileCompare env r trace c d pu).calls) =
      true := by
  have ht' : List.filter Call.isWrite trace = [] := ht
  simp only [doReconcileCompare]
  split
  · simp [writeCalls, ht', codeWriteShape, specWriteShape]
  · split
    · rcases hd : env.dryRunUpdate d with e | d' <;> simp only [hd]
      · simp [writeCalls, ht', Call.isWrite, codeWriteShape, specWriteShape]
      · rcases hc : env.dryRunUpdate c with e | c' <;> simp only [hc]
        · simp [writeCalls, ht', Call.isWrite, codeWriteShape, specWriteShape]
        · split
          · simp [writeCalls, ht', Call.isWrite, codeWriteShape, specWriteShape]
          · rw [upd_writes, writeCalls_append, ht]
            simp [writeCalls, Call.isWrite, codeWriteShape, specWriteShape]
    · rw [upd_writes, ht]
      simp [codeWriteShape, specWriteShape]

theorem found_shape (env : Client) (r : SimpleReconciler) (trace : List Call)
    (parent cur d0 : Obj) (ht : writeCalls trace = []) :
    codeWriteShape (writeCalls (doReconcileFound env r trace parent cur d0).calls) =
      true := by
  simp only [doReconcileFound]
  rcases hp : r.preUpdateFn with _ | f <;> simp only [hp]
  · exact compare_shape env r trace cur _ _ ht
  · rcases hf : f parent cur (withCopiedTokens d0 cur) with e | d' <;>
      simp only [hf]
    · simp [ht, codeWriteShape, specWriteShape]
    · exact compare_shape env r trace cur _ _ ht

theorem apply_shape (env : Client) (r : SimpleReconciler) (trace : List Call)
    (parent d : Obj) (ht : writeCalls trace = []) :
    codeWriteShape (writeCalls (doReconcileApply env r trace parent d).calls) =
      true := by
  have ht' : List.filter Call.isWrite trace = [] := ht
  simp only [doReconcileApply]
  rcases hget : env.get (objectKeyFromObject d) with cur | _ | e <;>
    simp only [hget]
  · exact found_shape env r _ parent cur d
      (by simp [writeCalls, ht', Call.isWrite])
  · rcases hc : env.create d with _ | e <;> simp only [hc] <;>
      simp [writeCalls, ht', Call.isWrite, codeWriteShape, specWriteShape]
  · simp [writeCalls, ht', Call.isWrite, codeWriteShape, specWriteShape]

theorem ownerStep_shape (env : Client) (r : SimpleReconciler)
    (trace : List Call) (parent d : Obj) (ht : writeCalls trace = []) :
    codeWriteShape (writeCalls (ownerStep env r trace parent d).calls) = true := by
  simp only [ownerStep]
  cases hnr : r.noReference
  · rcases hsc : setControllerReference env parent d with e | d' <;>
      simp only [Bool.false_eq_true, if_false]
    · simp [ht, codeWriteShape, specWriteShape]
    · exact apply_shape env r trace parent d' ht
  · simp only [if_true]
    exact apply_shape env r trace parent d ht

theorem rest_shape (env : Client) (r : SimpleReconciler) (trace : List Call)
    (parent : Obj) (ck : Key) (ht : writeCalls trace = []) :
    codeWriteShape (writeCalls (doReconcileRest env r trace parent ck).calls) =
      true := by
  simp only [doReconcileRest]
  cases hpb : predicateBlocks r parent
  · simp only [Bool.false_eq_true, if_false]
    rcases hr : r.reconcileFn parent with e | d0
    · simp [ht, codeWriteShape, specWriteShape]
    · rcases hck : r.childKeyFn with _ | f <;> simp only [hck]
      · exact ownerStep_shape env r trace parent d0 ht
      · split
        · simp [ht, codeWriteShape, specWriteShape]
        · exact ownerStep_shape env r trace parent _ ht
  · simp [ht, codeWriteShape, specWriteShape]

/-- A store where the child exists but every dry-run apply fails. -/
def dryFailStore : Client :=
  { emptyStore with
    get := fun _ => .found childObj
    dryRunUpdate := fun _ => .error (.store "dry-run failed") }

/-- A reconciler with dry-run enabled whose equality never holds. -/
def alwaysDiffRec : SimpleReconciler :=
  { name := "Pod"
    reconcileFn := fun _ => .ok childObj
    dryRunType := .warn
    cmpEqual := fun _ _ => false }

/-- Counterexample to C8 as stated: when the first dry-run apply fails the
invocation issues exactly one dry-run apply, a shape missing from the
claim's enumeration. -/
theorem write_shape_counterexample :
    specWriteShape
      (writeCalls (doReconcile dryFailStore alwaysDiffRec parentObj).calls) =
      false ∧
    writeCalls (doReconcile dryFailStore alwaysDiffRec parentObj).calls =
      [.dryRunUpd { childObj with ownerRef := some "parent-uid" }] := by
  constructor <;> decide

/-- C8 (amended): for every single step invocation the mutating store
calls issued (creates, updates, deletes and dry-run applies — fetches are
read-only and excluded) are exactly one of: none, one create, one update,
one delete, one dry-run apply (only when the first dry-run apply fails),
or two dry-run applies possibly followed by one update; in particular no
invocation issues both a create and an update, nor more than one of
create, update and delete. -/
theorem step_mutating_calls_shape (env : Client) (r : SimpleReconciler)
    (parent : Obj) :
    codeWriteShape (writeCalls (doReconcile env r parent).calls) = true := by
  simp only [doReconcile]
  rcases hsd : r.shouldDeleteFn with _ | sdf <;> simp only [hsd]
  · exact rest_shape env r [] parent _ rfl
  · rcases hck : r.childKeyFn with _ | ckf <;> simp only [hck]
    · simp [writeCalls, codeWriteShape, specWriteShape]
    · rcases hget : env.get (objectKeyFromObject (ckf parent)) with cur | _ | e <;>
        simp only [hget]
      · cases hdel : sdf parent
        · simp only [hdel, Bool.false_eq_true, if_false]
          exact rest_shape env r _ parent _ (by simp [writeCalls, Call.isWrite])
        · simp only [hdel, if_true]
          rcases hd : env.delete cur with _ | e <;> simp only [hd] <;>
            simp [writeCalls, Call.isWrite, codeWriteShape, specWriteShape]
      · exact rest_shape env r _ parent _ (by simp [writeCalls, Call.isWrite])
      · simp [writeCalls, Call.isWrite, codeWriteShape, specWriteShape]

end Maestro
